import Mathlib

/-!
Shallow embedding of `rmcloud2pdf` (src/rmcloud2pdf/main.py) and proofs about
the claims of its specification.

The embedding models the pure computational content of the script:

* string and path manipulation (`os.path.basename`, `os.path.dirname`,
  `os.path.join`, `str.replace`, `str.lstrip`, `str.strip`, `str.split`,
  `pathlib.Path.stem`) as executable functions on `String` / `List Char`;
* the extracted archive tree as a list of (directory, filename) entries in
  `os.walk` enumeration order, with the nested search loops of the source
  rendered as `List.find?` over that list;
* external effects (unzip, copy, per-page conversion, merge, directory
  removal, warnings, a propagated exception) as an ordered `Act` trace
  returned by the model of `process_rmdoc_file`.
-/

/-! ## Character-list string primitives -/

/-- `startsWithL pat l` is true when `pat` is a prefix of `l`
(model of Python `str.startswith` on character lists). -/
def startsWithL : List Char → List Char → Bool
  | [], _ => true
  | _ :: _, [] => false
  | p :: ps, c :: cs => p == c && startsWithL ps cs

/-- Model of Python `s.startswith(pat)`. -/
def strStartsWith (s pat : String) : Bool := startsWithL pat.data s.data

/-- Model of Python `s.endswith(pat)`. -/
def strEndsWith (s pat : String) : Bool := startsWithL pat.data.reverse s.data.reverse

/-- Model of Python `s[n:]` (character slicing). -/
def strDropChars (s : String) (n : Nat) : String := ⟨s.data.drop n⟩

/-- Python whitespace characters stripped by `str.strip()`. -/
def pyIsSpace (c : Char) : Bool :=
  c = ' ' || c = '\t' || c = '\n' || c = '\r' || c = '\x0b' || c = '\x0c'

/-- Model of Python `s.strip()`. -/
def pyStrip (s : String) : String :=
  ⟨((s.data.dropWhile pyIsSpace).reverse.dropWhile pyIsSpace).reverse⟩

/-- Model of Python `s.lstrip('/')`. -/
def lstripSlash (s : String) : String := ⟨s.data.dropWhile (fun c => c = '/')⟩

/-- Splitting at newline characters (model of Python `s.split('\n')` on the
character list; the empty list yields one empty line, as in Python). -/
def splitNl : List Char → List (List Char)
  | [] => [[]]
  | c :: rest =>
    let r := splitNl rest
    if c = '\n' then [] :: r
    else
      match r with
      | [] => [[c]]
      | h :: t => (c :: h) :: t

/-- Model of Python `s.split('\n')`. -/
def pySplitLines (s : String) : List String := (splitNl s.data).map (fun l => ⟨l⟩)

/-! ## Path primitives (`os.path`, `pathlib`) -/

/-- Model of `os.path.basename`: the part after the last slash. -/
def pyBasename (p : String) : String :=
  ⟨(p.data.reverse.takeWhile (fun c => c ≠ '/')).reverse⟩

/-- Model of `os.path.dirname`: the part before the last slash, with trailing
slashes stripped unless the result consists only of slashes. -/
def pyDirname (p : String) : String :=
  let pre := (p.data.reverse.dropWhile (fun c => c ≠ '/')).reverse
  if pre = [] then ""
  else if pre.all (fun c => c = '/') then ⟨pre⟩
  else ⟨(pre.reverse.dropWhile (fun c => c = '/')).reverse⟩

/-- Model of `os.path.join d n` for a relative second component. -/
def pyJoin (d n : String) : String :=
  if d = "" then n
  else if strEndsWith d "/" then d ++ n
  else d ++ "/" ++ n

/-- Model of `pathlib.Path(name).stem` for a name with no slash: the name
without its final extension; a name whose only dot is its first character
keeps the dot (hidden-file rule). -/
def pyStem (name : String) : String :=
  let afterDot := name.data.reverse.dropWhile (fun c => c ≠ '.')
  match afterDot with
  | [] => name
  | _ :: [] => name
  | _ :: rest => ⟨rest.reverse⟩

/-! ## `str.replace('.rmdoc', '')` -/

/-- The characters of the archive suffix `".rmdoc"`. -/
def rmdocL : List Char := ['.', 'r', 'm', 'd', 'o', 'c']

/-- Fuelled left-to-right scan removing each non-overlapping occurrence of
`".rmdoc"`, the behaviour of Python `s.replace('.rmdoc', '')`.  The fuel is
only there to make the recursion structural; `removeRmdoc` supplies enough. -/
def removeRmdocF : Nat → List Char → List Char
  | 0, l => l
  | _ + 1, [] => []
  | fuel + 1, c :: rest =>
    if startsWithL rmdocL (c :: rest) then removeRmdocF fuel (rest.drop 5)
    else c :: removeRmdocF fuel rest

/-- Model of Python `s.replace('.rmdoc', '')` on a character list. -/
def removeRmdoc (l : List Char) : List Char := removeRmdocF l.length l

/-- Model of Python `s.replace('.rmdoc', '')`. -/
def removeRmdocStr (s : String) : String := ⟨removeRmdoc s.data⟩

/-- True when `".rmdoc"` occurs somewhere in `l`. -/
def containsRmdoc : List Char → Bool
  | [] => false
  | c :: rest => startsWithL rmdocL (c :: rest) || containsRmdoc rest

/-! ## Listing Parser (`parse_rmapi_find`, main.py lines 82-120) -/

/-- The loop body of `parse_rmapi_find`: walk the lines accumulating
directory paths behind the `"[d] "` tag and file paths behind the `"[f] "`
tag, appending in input order exactly as the source loop does. -/
def parse_loop : List String → List String → List String → List String × List String
  | [], directories, files => (directories, files)
  | line :: rest, directories, files =>
    if line = "" then parse_loop rest directories files
    else if strStartsWith line "[d] " then
      parse_loop rest (directories ++ [strDropChars line 4]) files
    else if strStartsWith line "[f] " then
      parse_loop rest directories (files ++ [strDropChars line 4])
    else parse_loop rest directories files

/-- Model of `parse_rmapi_find`: strip the whole text, split at newlines,
and run the tag-dispatching loop. -/
def parse_rmapi_find (s : String) : List String × List String :=
  parse_loop (pySplitLines (pyStrip s)) [] []

/-- The contribution of one line to the directories sequence: its remainder
when the line is non-empty and starts with `"[d] "`. -/
def dirTagOf (line : String) : Option String :=
  if line = "" then none
  else if strStartsWith line "[d] " then some (strDropChars line 4)
  else none

/-- The contribution of one line to the files sequence: its remainder when
the line is non-empty, does not start with `"[d] "`, and starts with
`"[f] "` (the `elif` of the source). -/
def fileTagOf (line : String) : Option String :=
  if line = "" then none
  else if strStartsWith line "[d] " then none
  else if strStartsWith line "[f] " then some (strDropChars line 4)
  else none

/-! ## Tree Mirror (`ensure_directories_exist`, main.py lines 122-150) -/

/-- The filesystem as the model sees it: the set of directories that already
exist, and an oracle saying whether the operating system lets
`os.makedirs` create a given path. -/
structure FSOracle where
  existing : List String
  canCreate : String → Bool

/-- Outcome of `os.makedirs(p, exist_ok=True)`: success when the path
already exists (`exist_ok=True` suppresses the error) or the OS can create
it. -/
def mkdirsOk (fs : FSOracle) (p : String) : Bool :=
  fs.existing.contains p || fs.canCreate p

/-- Observable events of `ensure_directories_exist`, in program order. -/
inductive MirrorEvent where
  | rootError (p : String)
  | created (p : String)
  | entryError (p : String)
deriving DecidableEq, Repr

/-- Model of `ensure_directories_exist`: try to create the output root
first, returning only a root error if that fails; otherwise process every
entry of the list in order, reporting per-entry success or failure. -/
def ensure_directories_exist (fs : FSOracle) (output_path : String)
    (dir_list : List String) : List MirrorEvent :=
  if mkdirsOk fs output_path = false then [MirrorEvent.rootError output_path]
  else
    dir_list.map (fun directory =>
      let full_path := pyJoin output_path (lstripSlash directory)
      if mkdirsOk fs full_path then MirrorEvent.created full_path
      else MirrorEvent.entryError full_path)

/-! ## Archive model (`process_rmdoc_file`, main.py lines 246-371) -/

/-- One file of the extracted archive tree: the directory that contains it
(as yielded by `os.walk`) and its filename. -/
structure FSEntry where
  dir : String
  name : String
deriving DecidableEq, Repr

/-- Result of locating and reading the `.content` manifest:
`invalidJson` when `json.load` raises, `noPages` when the JSON parses but
`content_data['cPages']['pages']` raises `KeyError`, and `pages ids` when
the ordered page-id sequence is present. -/
inductive ManifestParse where
  | invalidJson
  | noPages
  | pages (ids : List String)
deriving DecidableEq, Repr

/-- One archive as `process_rmdoc_file` sees it: the `.rmdoc` path, the
scoped extraction directory chosen for it, the extracted entries in walk
enumeration order, the manifest parse outcome, and the per-page external
converter outcome (`rmc` exit status) keyed by page id. -/
structure ArchiveInput where
  path : String
  tempDir : String
  tree : List FSEntry
  manifest : ManifestParse
  convertOk : String → Bool

/-- The exception kinds the model lets propagate. -/
inductive ExnKind where
  | jsonDecodeError
deriving DecidableEq, Repr

/-- Observable actions of `process_rmdoc_file`, in program order. -/
inductive Act where
  | unzipTo (dir : String)
  | copyFile (src dst : String)
  | convertPage (input output : String) (ok : Bool)
  | mergeCall (pages : List String) (dst : String)
  | warnMissingPage (id : String)
  | reportNoPages
  | reportNoContent
  | reportNoFallback
  | removeTree (dir : String)
  | raised (e : ExnKind)
deriving DecidableEq, Repr

/-- The first walk of the source (lines 275-281): the first entry whose name
ends in `.content`. -/
def findContent (tree : List FSEntry) : Option FSEntry :=
  tree.find? (fun e => strEndsWith e.name ".content")

/-- The per-page walk of the source (lines 309-316): the first entry whose
name starts with the page id and ends in `.rm`. -/
def findRmFor (tree : List FSEntry) (pageId : String) : Option FSEntry :=
  tree.find? (fun e => strStartsWith e.name pageId && strEndsWith e.name ".rm")

/-- The fallback walk of the source (lines 350-357): the first entry whose
name ends in none of `.content`, `.metadata`, `.pagedata`, `.pdf`. -/
def findFallback (tree : List FSEntry) : Option FSEntry :=
  tree.find? (fun e =>
    !strEndsWith e.name ".content" && !strEndsWith e.name ".metadata" &&
    !strEndsWith e.name ".pagedata" && !strEndsWith e.name ".pdf")

/-- The `os.path.exists` check of line 295: a file named `uuid ++ ".pdf"`
directly inside the extraction root (not in a subdirectory). -/
def rootPdfExists (a : ArchiveInput) (uuid : String) : Bool :=
  a.tree.any (fun e => e.dir == a.tempDir && e.name == uuid ++ ".pdf")

/-- The deterministic output path of line 260-261: the directory of the
archive joined with its basename with every occurrence of `".rmdoc"`
removed (Python `str.replace`) plus `".pdf"`. -/
def finalPdfPathOf (p : String) : String :=
  pyJoin (pyDirname p) (removeRmdocStr (pyBasename p) ++ ".pdf")

/-- The page loop of the source (lines 306-336), returning the emitted
actions and the accumulated `pdf_pages` list.  Faithful to the source order:
when the `.rm` entry is found, the output path is appended to `pdf_pages`
(line 320) before the converter is invoked (line 325), so the appended path
does not depend on the converter's outcome; a missing entry only warns. -/
def pageLoop (a : ArchiveInput) : List String → List Act × List String
  | [] => ([], [])
  | pageId :: rest =>
    let r := pageLoop a rest
    match findRmFor a.tree pageId with
    | some e =>
      let pdfPagePath := pyJoin a.tempDir (pageId ++ ".pdf")
      (Act.convertPage (pyJoin e.dir e.name) pdfPagePath (a.convertOk pageId) :: r.1,
       pdfPagePath :: r.2)
    | none => (Act.warnMissingPage pageId :: r.1, r.2)

/-- The body of the `try` of `process_rmdoc_file` (lines 266-363): the
actions it emits and the exception it lets escape, if any.  `json.load`
runs before the embedded-PDF check, so an unparseable manifest raises in
every shape; the `KeyError` fallback and the page loop run only when no
root-level `<uuid>.pdf` exists. -/
def processBody (a : ArchiveInput) : List Act × Option ExnKind :=
  match findContent a.tree with
  | none => ([Act.reportNoContent], none)
  | some cf =>
    match a.manifest with
    | ManifestParse.invalidJson => ([], some ExnKind.jsonDecodeError)
    | ManifestParse.pages ids =>
      let contentUuid := pyStem cf.name
      if rootPdfExists a contentUuid then
        ([Act.copyFile (pyJoin a.tempDir (contentUuid ++ ".pdf")) (finalPdfPathOf a.path)],
         none)
      else
        let r := pageLoop a ids
        if r.2.isEmpty then (r.1 ++ [Act.reportNoPages], none)
        else (r.1 ++ [Act.mergeCall r.2 (finalPdfPathOf a.path)], none)
    | ManifestParse.noPages =>
      let contentUuid := pyStem cf.name
      if rootPdfExists a contentUuid then
        ([Act.copyFile (pyJoin a.tempDir (contentUuid ++ ".pdf")) (finalPdfPathOf a.path)],
         none)
      else
        match findFallback a.tree with
        | some e => ([Act.copyFile (pyJoin e.dir e.name) (finalPdfPathOf a.path)], none)
        | none => ([Act.reportNoFallback], none)

/-- Model of `process_rmdoc_file`: unzip, run the body, then the `finally`
removes the extraction directory before any escaping exception propagates. -/
def process_rmdoc_file (a : ArchiveInput) : List Act :=
  let body := processBody a
  Act.unzipTo a.tempDir :: body.1 ++
    Act.removeTree a.tempDir ::
      (match body.2 with
       | some e => [Act.raised e]
       | none => [])

/-- True when the trace ends in a propagated exception. -/
def raisesExn (t : List Act) : Bool :=
  t.any (fun x => match x with | Act.raised _ => true | _ => false)

/-- Model of the per-file loop of the script's main block: each archive is
processed in turn; an exception escaping `process_rmdoc_file` is unhandled
there, so it terminates the run and the remaining archives are not
processed. -/
def processRun : List ArchiveInput → List Act
  | [] => []
  | a :: rest =>
    let t := process_rmdoc_file a
    if raisesExn t then t else t ++ processRun rest

/-- Recognizer for merger invocations in a trace. -/
def isMergeAction : Act → Bool
  | Act.mergeCall _ _ => true
  | _ => false

/-! ## The spec-side output-path derivation (for the refinement comparison) -/

/-- Definition following the spec's words, not the source: the final output
path is the archive's path with the archive suffix `".rmdoc"` replaced by
`".pdf"` at the end of its base name (exact extension replacement), in the
same directory.  It is compared against `finalPdfPathOf`, the derivation the
source actually performs. -/
def specExtensionReplacePath (p : String) : String :=
  pyJoin (pyDirname p) (⟨(pyBasename p).data.take ((pyBasename p).data.length - 6)⟩ ++ ".pdf")

/-! ## Concrete archives used as counterexamples and witnesses -/

/-- A native notebook with two pages whose first page's external conversion
fails (`convertOk "p1" = false`). -/
def archiveConvertFail : ArchiveInput :=
  { path := "/out/doc.rmdoc", tempDir := "/out/T",
    tree := [⟨"/out/T", "abc.content"⟩, ⟨"/out/T", "p1.rm"⟩, ⟨"/out/T", "p2.rm"⟩],
    manifest := ManifestParse.pages ["p1", "p2"],
    convertOk := fun pid => pid == "p2" }

/-- An archive whose rendered-document entry `abc.pdf` sits in a
subdirectory of the extraction tree, together with a valid non-empty
page-descriptor manifest. -/
def archiveNestedPdf : ArchiveInput :=
  { path := "/out/doc.rmdoc", tempDir := "/out/T",
    tree := [⟨"/out/T", "abc.content"⟩, ⟨"/out/T/sub", "abc.pdf"⟩, ⟨"/out/T", "p1.rm"⟩],
    manifest := ManifestParse.pages ["p1"],
    convertOk := fun _ => true }

/-- An archive with a root-level rendered-document entry `abc.pdf` and a
valid non-empty page-descriptor manifest. -/
def archiveRootPdf : ArchiveInput :=
  { path := "/out/doc.rmdoc", tempDir := "/out/T",
    tree := [⟨"/out/T", "abc.content"⟩, ⟨"/out/T", "abc.pdf"⟩, ⟨"/out/T", "p1.rm"⟩],
    manifest := ManifestParse.pages ["p1"],
    convertOk := fun _ => true }

/-- A native notebook whose manifest order `[c, a, b]` differs from the
on-disk enumeration order `a, b, c` of its page entries. -/
def archiveOrdered : ArchiveInput :=
  { path := "/out/doc.rmdoc", tempDir := "/out/T",
    tree := [⟨"/out/T", "abc.content"⟩, ⟨"/out/T", "a.rm"⟩, ⟨"/out/T", "b.rm"⟩,
             ⟨"/out/T", "c.rm"⟩],
    manifest := ManifestParse.pages ["c", "a", "b"],
    convertOk := fun _ => true }

/-- A native notebook listing `[a, b, c]` whose source page for `b` is
absent from the extracted tree. -/
def archiveMissingMid : ArchiveInput :=
  { path := "/out/doc.rmdoc", tempDir := "/out/T",
    tree := [⟨"/out/T", "abc.content"⟩, ⟨"/out/T", "a.rm"⟩, ⟨"/out/T", "c.rm"⟩],
    manifest := ManifestParse.pages ["a", "b", "c"],
    convertOk := fun _ => true }

/-- A native notebook none of whose pages has a source entry, so the
renderable-page sequence ends up empty. -/
def archiveNoRm : ArchiveInput :=
  { path := "/out/doc.rmdoc", tempDir := "/out/T",
    tree := [⟨"/out/T", "abc.content"⟩],
    manifest := ManifestParse.pages ["a"],
    convertOk := fun _ => true }

/-- An archive whose located manifest entry is not parseable as JSON. -/
def archiveBadJson : ArchiveInput :=
  { path := "/out/doc.rmdoc", tempDir := "/out/T",
    tree := [⟨"/out/T", "abc.content"⟩],
    manifest := ManifestParse.invalidJson,
    convertOk := fun _ => true }

/-! ## Helper lemmas -/

/-- The accumulator loop of the Listing Parser is the in-order projection of
the tagged lines: appending line by line equals `filterMap` over the two
tag extractors. -/
theorem parse_loop_eq (lines : List String) (ds fs : List String) :
    parse_loop lines ds fs =
      (ds ++ lines.filterMap dirTagOf, fs ++ lines.filterMap fileTagOf) := by
  induction lines generalizing ds fs with
  | nil => simp [parse_loop]
  | cons line rest ih =>
    by_cases h1 : line = ""
    · simp [parse_loop, h1, ih, dirTagOf, fileTagOf]
    · by_cases h2 : strStartsWith line "[d] " = true
      · simp [parse_loop, h1, h2, ih, dirTagOf, fileTagOf]
      · by_cases h3 : strStartsWith line "[f] " = true
        · simp [parse_loop, h1, h2, h3, ih, dirTagOf, fileTagOf]
        · simp [parse_loop, h1, h2, h3, ih, dirTagOf, fileTagOf]

/-- Claim C9: for every input text to the Listing Parser, the directories
sequence is exactly the in-order remainders of the non-empty lines starting
with `"[d] "`, the files sequence exactly those of the lines starting with
`"[f] "` (hence relative order is preserved and every other line — empty or
unrecognized prefix — is silently skipped); no single line contributes its
path to both sequences; and empty input yields two empty sequences. -/
theorem claim_C9_listing_contract (s : String) :
    parse_rmapi_find s =
      ((pySplitLines (pyStrip s)).filterMap dirTagOf,
       (pySplitLines (pyStrip s)).filterMap fileTagOf) ∧
    (∀ line : String, dirTagOf line = none ∨ fileTagOf line = none) ∧
    parse_rmapi_find "" = ([], []) := by
  refine ⟨by simp [parse_rmapi_find, parse_loop_eq], ?_, by decide⟩
  intro line
  unfold dirTagOf fileTagOf
  by_cases h1 : line = "" <;> by_cases h2 : strStartsWith line "[d] " = true <;>
    simp [h1, h2]

/-- Claim C8: for every output root and directory-entry sequence, a failure
to create the root aborts mirroring entirely (the only event is the root
error, so no entry directory is touched); when the root succeeds, every
entry — including every entry after a failed one — yields its own event
(created on success, an error report on failure), and a pre-existing
directory always yields a created event, never an error. -/
theorem claim_C8_tree_mirror (fs : FSOracle) (out : String) (dirs : List String) :
    (mkdirsOk fs out = false →
      ensure_directories_exist fs out dirs = [MirrorEvent.rootError out]) ∧
    (mkdirsOk fs out = true →
      (∀ d ∈ dirs,
        (if mkdirsOk fs (pyJoin out (lstripSlash d)) then
           MirrorEvent.created (pyJoin out (lstripSlash d))
         else MirrorEvent.entryError (pyJoin out (lstripSlash d)))
          ∈ ensure_directories_exist fs out dirs) ∧
      (∀ d ∈ dirs, pyJoin out (lstripSlash d) ∈ fs.existing →
        MirrorEvent.created (pyJoin out (lstripSlash d))
          ∈ ensure_directories_exist fs out dirs)) := by
  constructor
  · intro h
    simp [ensure_directories_exist, h]
  · intro h
    constructor
    · intro d hd
      simp only [ensure_directories_exist, h, Bool.true_eq_false, if_false, List.mem_map]
      exact ⟨d, hd, rfl⟩
    · intro d hd hex
      have hok : mkdirsOk fs (pyJoin out (lstripSlash d)) = true := by
        unfold mkdirsOk
        rw [Bool.or_eq_true]
        exact Or.inl (List.elem_eq_true_of_mem hex)
      simp only [ensure_directories_exist, h, Bool.true_eq_false, if_false, List.mem_map]
      exact ⟨d, hd, by simp [hok]⟩

/-- Witness for claim C8, at a root that cannot be created and at a root
with one pre-existing entry directory. -/
theorem claim_C8_tree_mirror_witness :
    ensure_directories_exist ⟨[], fun _ => false⟩ "/out" ["/Notes"] =
      [MirrorEvent.rootError "/out"] ∧
    MirrorEvent.created "/out/Notes" ∈
      ensure_directories_exist ⟨["/out", "/out/Notes"], fun _ => false⟩ "/out" ["/Notes"] := by
  constructor
  · exact (claim_C8_tree_mirror ⟨[], fun _ => false⟩ "/out" ["/Notes"]).1 (by decide)
  · exact ((claim_C8_tree_mirror ⟨["/out", "/out/Notes"], fun _ => false⟩ "/out"
      ["/Notes"]).2 (by decide)).2 "/Notes" (by decide) (by decide)

/-- When every page id has a source entry, the accumulated `pdf_pages` list
is the manifest-order image of the page ids under the deterministic
per-page output path; it does not mention the tree's enumeration order. -/
theorem pageLoop_pages_eq_map (a : ArchiveInput) (ids : List String)
    (h : ∀ pid ∈ ids, (findRmFor a.tree pid).isSome = true) :
    (pageLoop a ids).2 = ids.map (fun pid => pyJoin a.tempDir (pid ++ ".pdf")) := by
  induction ids with
  | nil => simp [pageLoop]
  | cons pid rest ih =>
    have h1 := h pid (by simp)
    cases hf : findRmFor a.tree pid with
    | none => rw [hf] at h1; simp at h1
    | some e =>
      simp only [pageLoop, hf, List.map_cons]
      exact congrArg _ (ih (fun q hq => h q (by simp [hq])))

/-- The page loop emits conversion invocations and warnings, never a merger
invocation. -/
theorem pageLoop_no_merge (a : ArchiveInput) (ids : List String) :
    (pageLoop a ids).1.countP isMergeAction = 0 := by
  induction ids with
  | nil => simp [pageLoop]
  | cons pid rest ih =>
    cases hf : findRmFor a.tree pid <;>
      simp [pageLoop, hf, List.countP_cons, isMergeAction, ih]

/-- Claim C2 (amended): when a rendered-document entry named
`<base-identifier>.pdf` exists at the top level of the extraction directory,
the archive is handled as an embedded document: that entry is copied
directly to the final output path and nothing else happens — no page
reconstruction, no merger invocation — even though the archive carries a
valid page-descriptor manifest. -/
theorem claim_C2_embedded_priority (a : ArchiveInput) (cf : FSEntry) (ids : List String)
    (h1 : findContent a.tree = some cf)
    (h2 : a.manifest = ManifestParse.pages ids)
    (h3 : rootPdfExists a (pyStem cf.name) = true) :
    process_rmdoc_file a =
      [Act.unzipTo a.tempDir,
       Act.copyFile (pyJoin a.tempDir (pyStem cf.name ++ ".pdf")) (finalPdfPathOf a.path),
       Act.removeTree a.tempDir] := by
  simp [process_rmdoc_file, processBody, h1, h2, h3]

/-- Counterexample to claim C2 as stated: in `archiveNestedPdf` the
rendered-document entry `abc.pdf` exists in the extracted tree (in the
subdirectory `sub`), yet the archive is not classified as embedded-document:
the entry is not copied to the final output path, and page reconstruction
plus the merger run instead. -/
theorem claim_C2_counterexample :
    Act.copyFile "/out/T/sub/abc.pdf" "/out/doc.pdf" ∉ process_rmdoc_file archiveNestedPdf ∧
    process_rmdoc_file archiveNestedPdf =
      [Act.unzipTo "/out/T",
       Act.convertPage "/out/T/p1.rm" "/out/T/p1.pdf" true,
       Act.mergeCall ["/out/T/p1.pdf"] "/out/doc.pdf",
       Act.removeTree "/out/T"] := by decide

/-- Witness for the amended claim C2, at an archive carrying both a
root-level `abc.pdf` and a valid non-empty manifest. -/
theorem claim_C2_embedded_priority_witness :
    process_rmdoc_file archiveRootPdf =
      [Act.unzipTo "/out/T", Act.copyFile "/out/T/abc.pdf" "/out/doc.pdf",
       Act.removeTree "/out/T"] := by
  have h := claim_C2_embedded_priority archiveRootPdf ⟨"/out/T", "abc.content"⟩ ["p1"]
    (by decide) rfl (by decide)
  rw [h]
  decide

/-- Claim C3: for a native-notebook archive (manifest found and parsed, no
root-level embedded PDF) whose page ids all have source entries and all
convert successfully, the merger receives exactly the manifest-order list of
per-page output paths.  The list in the conclusion is a function of the
manifest ids alone — the extracted tree enters only through the existence
hypothesis — so the page order is the manifest order, independent of the
filesystem enumeration order of the extracted entries. -/
theorem claim_C3_manifest_order (a : ArchiveInput) (cf : FSEntry) (ids : List String)
    (h1 : findContent a.tree = some cf)
    (h2 : a.manifest = ManifestParse.pages ids)
    (h3 : rootPdfExists a (pyStem cf.name) = false)
    (h4 : ids ≠ [])
    (h5 : ∀ pid ∈ ids, (findRmFor a.tree pid).isSome = true)
    (h6 : ∀ pid ∈ ids, a.convertOk pid = true) :
    Act.mergeCall (ids.map (fun pid => pyJoin a.tempDir (pid ++ ".pdf")))
      (finalPdfPathOf a.path) ∈ process_rmdoc_file a := by
  have hp := pageLoop_pages_eq_map a ids h5
  simp [process_rmdoc_file, processBody, h1, h2, h3, hp, h4]

/-- Witness for claim C3: manifest order `[c, a, b]` with on-disk order
`a, b, c` still merges `c, a, b`. -/
theorem claim_C3_manifest_order_witness :
    Act.mergeCall ["/out/T/c.pdf", "/out/T/a.pdf", "/out/T/b.pdf"] "/out/doc.pdf"
      ∈ process_rmdoc_file archiveOrdered := by
  have h := claim_C3_manifest_order archiveOrdered ⟨"/out/T", "abc.content"⟩
    ["c", "a", "b"] (by decide) rfl (by decide) (by decide) (by decide)
    (fun pid _ => rfl)
  simpa using h

/-- Claim C4: for a native-notebook archive whose manifest lists
`[a, b, c]` with no source entry for `b`, the missing page is warned about
and the merger receives exactly the two pages `a, c`, in that order. -/
theorem claim_C4_missing_page (a : ArchiveInput) (cf : FSEntry) (ia ib ic : String)
    (ea ec : FSEntry)
    (h1 : findContent a.tree = some cf)
    (h2 : a.manifest = ManifestParse.pages [ia, ib, ic])
    (h3 : rootPdfExists a (pyStem cf.name) = false)
    (hA : findRmFor a.tree ia = some ea)
    (hB : findRmFor a.tree ib = none)
    (hC : findRmFor a.tree ic = some ec)
    (hcA : a.convertOk ia = true)
    (hcC : a.convertOk ic = true) :
    Act.warnMissingPage ib ∈ process_rmdoc_file a ∧
    Act.mergeCall [pyJoin a.tempDir (ia ++ ".pdf"), pyJoin a.tempDir (ic ++ ".pdf")]
      (finalPdfPathOf a.path) ∈ process_rmdoc_file a := by
  have hpl : pageLoop a [ia, ib, ic] =
      ([Act.convertPage (pyJoin ea.dir ea.name) (pyJoin a.tempDir (ia ++ ".pdf"))
          (a.convertOk ia),
        Act.warnMissingPage ib,
        Act.convertPage (pyJoin ec.dir ec.name) (pyJoin a.tempDir (ic ++ ".pdf"))
          (a.convertOk ic)],
       [pyJoin a.tempDir (ia ++ ".pdf"), pyJoin a.tempDir (ic ++ ".pdf")]) := by
    simp [pageLoop, hA, hB, hC]
  constructor <;> simp [process_rmdoc_file, processBody, h1, h2, h3, hpl]

/-- Witness for claim C4: manifest `[a, b, c]` with `b.rm` absent merges
exactly `a, c`. -/
theorem claim_C4_missing_page_witness :
    Act.warnMissingPage "b" ∈ process_rmdoc_file archiveMissingMid ∧
    Act.mergeCall ["/out/T/a.pdf", "/out/T/c.pdf"] "/out/doc.pdf"
      ∈ process_rmdoc_file archiveMissingMid := by
  have h := claim_C4_missing_page archiveMissingMid ⟨"/out/T", "abc.content"⟩
    "a" "b" "c" ⟨"/out/T", "a.rm"⟩ ⟨"/out/T", "c.rm"⟩
    (by decide) rfl (by decide) (by decide) (by decide) (by decide) rfl rfl
  simpa using h

/-- Claim C5: for a native-notebook archive, if the renderable-page sequence
is empty after all descriptors are processed, the archive aborts with the
no-pages report and the merger is never invoked (zero merger invocations in
the whole trace); otherwise the merger is invoked exactly once, with that
non-empty sequence and the final output path. -/
theorem claim_C5_merge_once (a : ArchiveInput) (cf : FSEntry) (ids : List String)
    (h1 : findContent a.tree = some cf)
    (h2 : a.manifest = ManifestParse.pages ids)
    (h3 : rootPdfExists a (pyStem cf.name) = false) :
    ((pageLoop a ids).2 = [] →
      Act.reportNoPages ∈ process_rmdoc_file a ∧
      (process_rmdoc_file a).countP isMergeAction = 0) ∧
    ((pageLoop a ids).2 ≠ [] →
      (process_rmdoc_file a).countP isMergeAction = 1 ∧
      Act.mergeCall (pageLoop a ids).2 (finalPdfPathOf a.path)
        ∈ process_rmdoc_file a) := by
  have hnm := pageLoop_no_merge a ids
  constructor
  · intro he
    constructor
    · simp [process_rmdoc_file, processBody, h1, h2, h3, he]
    · simp [process_rmdoc_file, processBody, h1, h2, h3, he, List.countP_cons,
        List.countP_append, isMergeAction, hnm]
  · intro he
    have he2 : (pageLoop a ids).2.isEmpty = false := by
      cases hp : (pageLoop a ids).2 with
      | nil => exact absurd hp he
      | cons x xs => simp
    constructor
    · simp [process_rmdoc_file, processBody, h1, h2, h3, he2, List.countP_cons,
        List.countP_append, isMergeAction, hnm]
    · simp [process_rmdoc_file, processBody, h1, h2, h3, he2]

/-- Witness for claim C5: the all-pages-missing archive reports no pages
with zero merger invocations, and `archiveOrdered` invokes the merger
exactly once. -/
theorem claim_C5_merge_once_witness :
    (Act.reportNoPages ∈ process_rmdoc_file archiveNoRm ∧
     (process_rmdoc_file archiveNoRm).countP isMergeAction = 0) ∧
    ((process_rmdoc_file archiveOrdered).countP isMergeAction = 1 ∧
     Act.mergeCall (pageLoop archiveOrdered ["c", "a", "b"]).2
       (finalPdfPathOf archiveOrdered.path) ∈ process_rmdoc_file archiveOrdered) := by
  constructor
  · exact (claim_C5_merge_once archiveNoRm ⟨"/out/T", "abc.content"⟩ ["a"]
      (by decide) rfl (by decide)).1 (by decide)
  · exact (claim_C5_merge_once archiveOrdered ⟨"/out/T", "abc.content"⟩ ["c", "a", "b"]
      (by decide) rfl (by decide)).2 (by decide)

/-- Claim C6: for every archive input — embedded-document, native-notebook
(with or without conversion failures), unrecognized-payload, missing
manifest, or a propagating JSON parse error — the trace of
`process_rmdoc_file` removes the scoped extraction directory, and the only
thing that can follow the removal is the propagated exception itself. -/
theorem claim_C6_cleanup (a : ArchiveInput) :
    ∃ pre tail, process_rmdoc_file a =
        pre ++ Act.removeTree a.tempDir :: tail ∧
      (tail = [] ∨ tail = [Act.raised ExnKind.jsonDecodeError]) := by
  refine ⟨Act.unzipTo a.tempDir :: (processBody a).1, ?_, ?_, ?_⟩
  · exact match (processBody a).2 with
      | some e => [Act.raised e]
      | none => []
  · simp [process_rmdoc_file]
  · cases h : (processBody a).2 with
    | none => exact Or.inl (by simp [h])
    | some e => cases e; exact Or.inr (by simp [h])

/-- Claim C10: an archive whose located manifest is not parseable as JSON
does not follow the skip-and-continue policy: `process_rmdoc_file` removes
the extraction directory and then lets the parse error propagate as an
exception, and the per-file driver loop stops there — the remaining
archives contribute nothing to the run's trace. -/
theorem claim_C10_json_error (a : ArchiveInput) (cf : FSEntry) (rest : List ArchiveInput)
    (h1 : findContent a.tree = some cf)
    (h2 : a.manifest = ManifestParse.invalidJson) :
    process_rmdoc_file a =
      [Act.unzipTo a.tempDir, Act.removeTree a.tempDir,
       Act.raised ExnKind.jsonDecodeError] ∧
    processRun (a :: rest) = process_rmdoc_file a := by
  have hp : process_rmdoc_file a =
      [Act.unzipTo a.tempDir, Act.removeTree a.tempDir,
       Act.raised ExnKind.jsonDecodeError] := by
    simp [process_rmdoc_file, processBody, h1, h2]
  refine ⟨hp, ?_⟩
  simp [processRun, hp, raisesExn]

/-- Witness for claim C10: the bad-JSON archive cleans up, raises, and stops
the run before the following archive. -/
theorem claim_C10_json_error_witness :
    process_rmdoc_file archiveBadJson =
      [Act.unzipTo "/out/T", Act.removeTree "/out/T",
       Act.raised ExnKind.jsonDecodeError] ∧
    processRun [archiveBadJson, archiveRootPdf] = process_rmdoc_file archiveBadJson := by
  have h := claim_C10_json_error archiveBadJson ⟨"/out/T", "abc.content"⟩ [archiveRootPdf]
    (by decide) rfl
  exact ⟨h.1, h.2⟩

/-- The pattern `".rmdoc"` has no self-overlap: if it is a prefix of
`(a :: l) ++ ".rmdoc"`, it was already a prefix of `a :: l` — an occurrence
can never straddle the boundary of an appended `".rmdoc"`. -/
theorem startsWithL_rmdoc_append (a : Char) (l : List Char)
    (h : startsWithL rmdocL ((a :: l) ++ rmdocL) = true) :
    startsWithL rmdocL (a :: l) = true := by
  rcases l with _ | ⟨b, _ | ⟨c, _ | ⟨d, _ | ⟨e, _ | ⟨f, rest⟩⟩⟩⟩⟩
  · simp only [rmdocL, List.cons_append, List.nil_append, startsWithL,
      Bool.and_eq_true] at h
    exact absurd h.2.1 (by decide)
  · simp only [rmdocL, List.cons_append, List.nil_append, startsWithL,
      Bool.and_eq_true] at h
    exact absurd h.2.2.1 (by decide)
  · simp only [rmdocL, List.cons_append, List.nil_append, startsWithL,
      Bool.and_eq_true] at h
    exact absurd h.2.2.2.1 (by decide)
  · simp only [rmdocL, List.cons_append, List.nil_append, startsWithL,
      Bool.and_eq_true] at h
    exact absurd h.2.2.2.2.1 (by decide)
  · simp only [rmdocL, List.cons_append, List.nil_append, startsWithL,
      Bool.and_eq_true] at h
    exact absurd h.2.2.2.2.2.1 (by decide)
  · simp only [rmdocL, List.cons_append, startsWithL, Bool.and_eq_true] at h ⊢
    exact h

/-- The fuelled scan is the identity on the empty list. -/
theorem removeRmdocF_nil (fuel : Nat) : removeRmdocF fuel [] = [] := by
  cases fuel <;> rfl

/-- Removing `".rmdoc"` occurrences from `m ++ ".rmdoc"` yields exactly `m`
when `m` itself contains no occurrence. -/
theorem removeRmdocF_strip : ∀ (m : List Char), containsRmdoc m = false →
    ∀ fuel, (m ++ rmdocL).length ≤ fuel → removeRmdocF fuel (m ++ rmdocL) = m := by
  intro m
  induction m with
  | nil =>
    intro _ fuel hf
    simp only [List.nil_append, rmdocL, List.length_cons] at hf
    match fuel, hf with
    | f + 1, _ =>
      show removeRmdocF (f + 1) ([] ++ rmdocL) = []
      simp only [List.nil_append]
      rw [show (rmdocL : List Char) = '.' :: ['r', 'm', 'd', 'o', 'c'] from rfl]
      rw [removeRmdocF]
      simp only [show startsWithL rmdocL ('.' :: ['r', 'm', 'd', 'o', 'c']) = true from
        by decide, if_true]
      exact removeRmdocF_nil f
  | cons a m' ih =>
    intro h fuel hf
    have hc : startsWithL rmdocL (a :: m') = false ∧ containsRmdoc m' = false := by
      have hh := h
      simp only [containsRmdoc, Bool.or_eq_false_iff] at hh
      exact hh
    match fuel, hf with
    | f + 1, hf =>
      have hns : startsWithL rmdocL (a :: (m' ++ rmdocL)) = false := by
        cases hss : startsWithL rmdocL (a :: (m' ++ rmdocL)) with
        | false => rfl
        | true =>
          have hss2 : startsWithL rmdocL ((a :: m') ++ rmdocL) = true := by
            simpa using hss
          rw [startsWithL_rmdoc_append a m' hss2] at hc
          exact absurd hc.1 (by simp)
      show removeRmdocF (f + 1) ((a :: m') ++ rmdocL) = a :: m'
      rw [List.cons_append, removeRmdocF, hns]
      simp only [Bool.false_eq_true, if_false, List.cons.injEq, true_and]
      apply ih hc.2
      have hlen : ((a :: m') ++ rmdocL).length = (m' ++ rmdocL).length + 1 := by simp
      omega

/-- List-level form: `removeRmdoc (m ++ ".rmdoc") = m` when `m` contains no
occurrence of `".rmdoc"`. -/
theorem removeRmdoc_append_rmdoc (m : List Char) (h : containsRmdoc m = false) :
    removeRmdoc (m ++ rmdocL) = m :=
  removeRmdocF_strip m h _ le_rfl

/-- String-level form: `str.replace('.rmdoc', '')` applied to
`stem ++ ".rmdoc"` gives back `stem` when `stem` contains no occurrence. -/
theorem removeRmdocStr_append_suffix (stem : String)
    (h : containsRmdoc stem.data = false) :
    removeRmdocStr (stem ++ ".rmdoc") = stem := by
  unfold removeRmdocStr
  have hd : (stem ++ ".rmdoc").data = stem.data ++ rmdocL := by
    rw [String.data_append]
    rfl
  rw [hd, removeRmdoc_append_rmdoc stem.data h]

/-- Claim C7 (amended): the source derives the output path by removing every
occurrence of the substring `".rmdoc"` from the archive's base name (Python
`str.replace`) and appending `".pdf"`, in the archive's directory.  When
`".rmdoc"` occurs in the base name only as its trailing suffix, this
coincides with extension replacement at the end of the name. -/
theorem claim_C7_output_path (p stem : String)
    (h1 : pyBasename p = stem ++ ".rmdoc")
    (h2 : containsRmdoc stem.data = false) :
    finalPdfPathOf p = pyJoin (pyDirname p) (stem ++ ".pdf") := by
  unfold finalPdfPathOf
  rw [h1, removeRmdocStr_append_suffix stem h2]

/-- Counterexample to claim C7 as stated: for the archive path
`/x/notes.rmdoc.rmdoc` the code removes both occurrences of `".rmdoc"` from
the base name, producing `/x/notes.pdf`, while exact extension replacement
at the end of the name would produce `/x/notes.rmdoc.pdf`. -/
theorem claim_C7_counterexample :
    finalPdfPathOf "/x/notes.rmdoc.rmdoc" = "/x/notes.pdf" ∧
    specExtensionReplacePath "/x/notes.rmdoc.rmdoc" = "/x/notes.rmdoc.pdf" ∧
    finalPdfPathOf "/x/notes.rmdoc.rmdoc" ≠
      specExtensionReplacePath "/x/notes.rmdoc.rmdoc" := by decide

/-- Witness for the amended claim C7, at the archive path
`/x/notes.rmdoc`. -/
theorem claim_C7_output_path_witness :
    pyBasename "/x/notes.rmdoc" = "notes" ++ ".rmdoc" ∧
    containsRmdoc ("notes" : String).data = false ∧
    finalPdfPathOf "/x/notes.rmdoc" =
      pyJoin (pyDirname "/x/notes.rmdoc") ("notes" ++ ".pdf") :=
  ⟨by decide, by decide, claim_C7_output_path "/x/notes.rmdoc" "notes"
    (by decide) (by decide)⟩

/-- Claim C1 evaluated on the failing input `archiveConvertFail`: page
p1 has a failing conversion invocation (`ok = false`), the remaining page p2
is still processed, yet the failed page's output path `/out/T/p1.pdf` is
nonetheless the first element of the sequence handed to the merger — the
source appends the output path to `pdf_pages` (line 320) before invoking
the converter (line 325), so a conversion failure does not remove it. -/
theorem claim_C1_code_eval :
    Act.convertPage "/out/T/p1.rm" "/out/T/p1.pdf" false
      ∈ process_rmdoc_file archiveConvertFail ∧
    Act.convertPage "/out/T/p2.rm" "/out/T/p2.pdf" true
      ∈ process_rmdoc_file archiveConvertFail ∧
    Act.mergeCall ["/out/T/p1.pdf", "/out/T/p2.pdf"] "/out/doc.pdf"
      ∈ process_rmdoc_file archiveConvertFail := by decide
